import Mathlib

/-!
Verification development for `school-timetable.py`.

The script builds a CP-SAT model assigning subjects to groups and teachers
over a weekly grid of `num_days × num_hours` slots.  We embed the model
shallowly: the dictionary of decision variables becomes an explicit key
list, the engine's variables become an inductive `Var` type, and every
`model.Add` / `model.AddAtMostOne` call becomes an explicit `Constr` value
collected by `buildModel`.  A solution of the model is a boolean valuation
`σ : Var → Bool` making every collected constraint hold.

The printing routine `print_timetables` is embedded as a pure function over
an explicit environment of the module-level globals it references
(`all_groups`, `all_subjects`, `all_teachers`); an undefined global is an
`Except.error` mirroring Python's `NameError`, raised only when the name is
actually evaluated.
-/

/-- Mirrors the `Subject` dataclass of the source (field for field,
including the defaults). -/
structure Subject where
  id : String
  name : String
  course : String
  weekly_hours : Nat := 5
  max_hours_per_day : Nat := 1
deriving DecidableEq

/-- Mirrors the `Teacher` dataclass of the source; `subjects` is the list of
certified subjects (the `None -> []` normalisation of `__post_init__` is the
default). -/
structure Teacher where
  id : Int
  name : String
  max_hours_week : Nat := 20
  subjects : List Subject := []
deriving DecidableEq

/-- Mirrors `group.split('-')[0]`: the text of the group string before the
first `-` (the whole string when no `-` occurs), computed on the string's
character list. -/
def courseOf (group : String) : String :=
  ⟨group.data.takeWhile (fun c => c ≠ '-')⟩

/-- The 5-tuple `(group, subject.id, teacher.id, d, h)` keying the
`assignments` dictionary. -/
structure SKey where
  group : String
  subj : String
  teach : Int
  day : Nat
  hour : Nat
deriving DecidableEq

/-- The boolean variables created by `build_and_solve`: one per assignment
key, plus the aggregated occupancy variables `y_…` and the block-start
variables `start_…` of the contiguity encoding (named by group, subject id,
day and hour exactly as the Python variable labels are). -/
inductive Var where
  | assign (k : SKey)
  | yv (group sid : String) (d h : Nat)
  | startv (group sid : String) (d h : Nat)
deriving DecidableEq

/-- A constraint registered against the engine: a linear equality,
a linear `≤` / `≥`, or the dedicated `AddAtMostOne` primitive. -/
inductive Constr where
  | linEq (terms : List (Int × Var)) (rhs : Int)
  | linLe (terms : List (Int × Var)) (rhs : Int)
  | linGe (terms : List (Int × Var)) (rhs : Int)
  | atMostOne (vars : List Var)
deriving DecidableEq

/-- Value of a boolean variable as the integer 0 or 1. -/
def b2i (b : Bool) : Int := if b then 1 else 0

/-- Value of a linear expression `Σ coeff · var` under a valuation. -/
def evalTerms (σ : Var → Bool) (terms : List (Int × Var)) : Int :=
  (terms.map (fun p => p.1 * b2i (σ p.2))).sum

/-- Satisfaction of one constraint by a valuation. -/
def Constr.holds (σ : Var → Bool) : Constr → Bool
  | Constr.linEq terms rhs => evalTerms σ terms == rhs
  | Constr.linLe terms rhs => decide (evalTerms σ terms ≤ rhs)
  | Constr.linGe terms rhs => decide (rhs ≤ evalTerms σ terms)
  | Constr.atMostOne vs => decide (List.countP σ vs ≤ 1)

/-- Key filter `key[0] == group and key[1] == sid` used by the weekly-quota
constraint. -/
def keyGS (group sid : String) (k : SKey) : Bool :=
  k.group == group && k.subj == sid

/-- Key filter `key[2] == tid and key[3] == d and key[4] == h` used by the
teacher at-most-one constraint. -/
def keyTDH (tid : Int) (d h : Nat) (k : SKey) : Bool :=
  k.teach == tid && k.day == d && k.hour == h

/-- Key filter `key[2] == tid` used by the weekly workload constraint. -/
def keyT (tid : Int) (k : SKey) : Bool :=
  k.teach == tid

/-- Key filter used by the daily per-subject cap. -/
def keyGSTD (group sid : String) (tid : Int) (d : Nat) (k : SKey) : Bool :=
  k.group == group && k.subj == sid && k.teach == tid && k.day == d

/-- Key filter used by the one-subject-per-slot constraint. -/
def keyGDH (group : String) (d h : Nat) (k : SKey) : Bool :=
  k.group == group && k.day == d && k.hour == h

/-- Key filter used when aggregating a slot over teachers in the contiguity
encoding. -/
def keyGSDH (group sid : String) (d h : Nat) (k : SKey) : Bool :=
  k.group == group && k.subj == sid && k.day == d && k.hour == h

/-- The assignment keys in the order the nested loops of lines 41–50
generate them: for each group, each course-matching subject, each teacher
certified for it, each day and each hour. -/
def rawKeys (num_days num_hours : Nat) (all_groups : List String)
    (all_subjects : List Subject) (all_teachers : List Teacher) : List SKey :=
  all_groups.flatMap (fun group =>
    all_subjects.flatMap (fun subject =>
      if subject.course = courseOf group then
        all_teachers.flatMap (fun teacher =>
          if subject ∈ teacher.subjects then
            (List.range num_days).flatMap (fun d =>
              (List.range num_hours).map (fun h =>
                ⟨group, subject.id, teacher.id, d, h⟩))
          else [])
      else []))

/-- Inserting a key into a Python dict's key sequence: re-inserting an
existing key leaves the sequence unchanged. -/
def insertKey (l : List SKey) (k : SKey) : List SKey :=
  if k ∈ l then l else l ++ [k]

/-- The key sequence of the `assignments` dictionary after all insertions. -/
def dictKeys (num_days num_hours : Nat) (all_groups : List String)
    (all_subjects : List Subject) (all_teachers : List Teacher) : List SKey :=
  (rawKeys num_days num_hours all_groups all_subjects all_teachers).foldl insertKey []

/-- Lines 53–57: one weekly-quota equality per (group, course-matching
subject). -/
def quotaConstrs (keys : List SKey) (all_groups : List String)
    (all_subjects : List Subject) : List Constr :=
  all_groups.flatMap (fun group =>
    all_subjects.flatMap (fun subject =>
      if subject.course = courseOf group then
        [Constr.linEq ((keys.filter (keyGS group subject.id)).map
            (fun k => ((1 : Int), Var.assign k))) (subject.weekly_hours : Int)]
      else []))

/-- Lines 60–63: `AddAtMostOne` over each teacher's variables of one slot. -/
def amoConstrs (keys : List SKey) (all_teachers : List Teacher)
    (num_days num_hours : Nat) : List Constr :=
  all_teachers.flatMap (fun teacher =>
    (List.range num_days).flatMap (fun d =>
      (List.range num_hours).map (fun h =>
        Constr.atMostOne ((keys.filter (keyTDH teacher.id d h)).map Var.assign))))

/-- Lines 66–69: weekly workload cap per teacher. -/
def workloadConstrs (keys : List SKey) (all_teachers : List Teacher) : List Constr :=
  all_teachers.map (fun teacher =>
    Constr.linLe ((keys.filter (keyT teacher.id)).map
      (fun k => ((1 : Int), Var.assign k))) (teacher.max_hours_week : Int))

/-- Lines 72–80: daily cap per (group, matching subject, certified teacher,
day). -/
def dailyConstrs (keys : List SKey) (all_groups : List String)
    (all_subjects : List Subject) (all_teachers : List Teacher)
    (num_days : Nat) : List Constr :=
  all_groups.flatMap (fun group =>
    all_subjects.flatMap (fun subject =>
      if subject.course = courseOf group then
        all_teachers.flatMap (fun teacher =>
          if subject ∈ teacher.subjects then
            (List.range num_days).map (fun d =>
              Constr.linLe ((keys.filter (keyGSTD group subject.id teacher.id d)).map
                (fun k => ((1 : Int), Var.assign k))) (subject.max_hours_per_day : Int))
          else [])
      else []))

/-- Lines 83–86: at most one subject per (group, day, hour). -/
def slotConstrs (keys : List SKey) (all_groups : List String)
    (num_days num_hours : Nat) : List Constr :=
  all_groups.flatMap (fun group =>
    (List.range num_days).flatMap (fun d =>
      (List.range num_hours).map (fun h =>
        Constr.linLe ((keys.filter (keyGDH group d h)).map
          (fun k => ((1 : Int), Var.assign k))) 1)))

/-- Lines 94–110: the occupancy variable of one slot is the sum of that
slot's assignment variables over teachers, or fixed to 0 when no variable
exists for the slot. -/
def yLinkConstr (keys : List SKey) (group sid : String) (d h : Nat) : Constr :=
  if (keys.filter (keyGSDH group sid d h)).isEmpty then
    Constr.linEq [((1 : Int), Var.yv group sid d h)] 0
  else
    Constr.linEq (((keys.filter (keyGSDH group sid d h)).map
        (fun k => ((1 : Int), Var.assign k))) ++
      [((-1 : Int), Var.yv group sid d h)]) 0

/-- Lines 114–127: the block-start definition of one hour — hour 0's start
equals the occupancy, and for a later hour the three-inequality
linearisation of `start = y_h ∧ ¬ y_(h-1)`. -/
def startConstrs (group sid : String) (d h : Nat) : List Constr :=
  if h = 0 then
    [Constr.linEq [((1 : Int), Var.startv group sid d 0),
                   ((-1 : Int), Var.yv group sid d 0)] 0]
  else
    [Constr.linGe [((1 : Int), Var.startv group sid d h),
                   ((-1 : Int), Var.yv group sid d h),
                   ((1 : Int), Var.yv group sid d (h - 1))] 0,
     Constr.linLe [((1 : Int), Var.startv group sid d h),
                   ((-1 : Int), Var.yv group sid d h)] 0,
     Constr.linLe [((1 : Int), Var.startv group sid d h),
                   ((1 : Int), Var.yv group sid d (h - 1))] 1]

/-- The block-start constraints of one (group, subject, day) — the per-hour
start definitions together with line 130's bound of at most one block start
per day. -/
def startBlock (group sid : String) (d num_hours : Nat) : List Constr :=
  ((List.range num_hours).flatMap (fun h => startConstrs group sid d h)) ++
  [Constr.linLe ((List.range num_hours).map
      (fun h => ((1 : Int), Var.startv group sid d h))) 1]

/-- Lines 93–130: the full contiguity block of one (group, subject, day). -/
def contigBlock (keys : List SKey) (group sid : String)
    (d num_hours : Nat) : List Constr :=
  ((List.range num_hours).map (fun h => yLinkConstr keys group sid d h)) ++
  startBlock group sid d num_hours

/-- Lines 89–130: contiguity blocks for every group, matching subject and
day. -/
def contigConstrs (keys : List SKey) (all_groups : List String)
    (all_subjects : List Subject) (num_days num_hours : Nat) : List Constr :=
  all_groups.flatMap (fun group =>
    all_subjects.flatMap (fun subject =>
      if subject.course = courseOf group then
        (List.range num_days).flatMap (fun d =>
          contigBlock keys group subject.id d num_hours)
      else []))

/-- All constraints `build_and_solve` registers against the model, in
source order. -/
def buildModel (num_days num_hours : Nat) (all_groups : List String)
    (all_subjects : List Subject) (all_teachers : List Teacher) : List Constr :=
  quotaConstrs (dictKeys num_days num_hours all_groups all_subjects all_teachers)
      all_groups all_subjects ++
  amoConstrs (dictKeys num_days num_hours all_groups all_subjects all_teachers)
      all_teachers num_days num_hours ++
  workloadConstrs (dictKeys num_days num_hours all_groups all_subjects all_teachers)
      all_teachers ++
  dailyConstrs (dictKeys num_days num_hours all_groups all_subjects all_teachers)
      all_groups all_subjects all_teachers num_days ++
  slotConstrs (dictKeys num_days num_hours all_groups all_subjects all_teachers)
      all_groups num_days num_hours ++
  contigConstrs (dictKeys num_days num_hours all_groups all_subjects all_teachers)
      all_groups all_subjects num_days num_hours

/-- A valuation is a solution accepted by the model when every registered
constraint holds. -/
abbrev ModelSat (num_days num_hours : Nat) (all_groups : List String)
    (all_subjects : List Subject) (all_teachers : List Teacher)
    (σ : Var → Bool) : Prop :=
  ∀ c ∈ buildModel num_days num_hours all_groups all_subjects all_teachers,
    Constr.holds σ c = true

/-- An occupancy pattern over hours `0 … H-1` has no split: it never shows
occupied – free – occupied at increasing hours.  This is exactly "the
occupied hours form at most one contiguous run". -/
def NoSplit (num_hours : Nat) (occ : Nat → Bool) : Prop :=
  ∀ h1 h2 h3, h1 < h2 → h2 < h3 → h3 < num_hours →
    occ h1 = true → occ h2 = false → occ h3 = true → False

/-- The hour-wise relation the start constraints of one (group, subject,
day) enforce between the occupancy values `y` and the block-start values
`st`: hour 0's start equals the occupancy, and a later hour starts a block
exactly when it is occupied and the previous hour is not. -/
def startRel (num_hours : Nat) (y st : Nat → Bool) : Prop :=
  ∀ h, h < num_hours → st h = (if h = 0 then y 0 else (y h && !(y (h - 1))))

/-- The edge-detector pattern of an occupancy pattern: true exactly at the
first hour of each contiguous occupied run. -/
def edgeOf (occ : Nat → Bool) (h : Nat) : Bool :=
  if h = 0 then occ 0 else (occ h && !(occ (h - 1)))

/-- A valuation explicitly realising a given occupancy pattern together
with its edge detector on the auxiliary variables. -/
def edgeValuation (occ : Nat → Bool) : Var → Bool := fun v =>
  match v with
  | Var.assign _ => false
  | Var.yv _ _ _ h => occ h
  | Var.startv _ _ _ h => edgeOf occ h

/-- A one-group fixture: one subject of course `1` needing 2 weekly hours
with a daily cap of 2. -/
def subjW : Subject := ⟨"m", "m", "1", 2, 2⟩

/-- A teacher certified for `subjW` with a generous weekly cap. -/
def teachW : Teacher := ⟨1, "t", 20, [subjW]⟩

/-- A solution of the fixture model with one day and two hours: every
assignment and occupancy variable is 1 and the single block starts at
hour 0. -/
def sigmaW : Var → Bool := fun v =>
  match v with
  | Var.startv _ _ _ h => h == 0
  | _ => true

/-- The subject of the shared-teacher scenario: course `1`, 2 weekly hours,
daily cap 2. -/
def sharedSubject : Subject := ⟨"m", "Maths", "1", 2, 2⟩

/-- The single teacher of the shared-teacher scenario: certified for
`sharedSubject`, at most 3 hours a week — less than the combined demand of
two groups but enough for either one. -/
def sharedTeacher : Teacher := ⟨1, "T", 3, [sharedSubject]⟩

/-- A solution of the one-group shared-teacher model over a 2-day × 2-hour
grid: both hours of day 0 are taught and day 1 stays free. -/
def sigmaShared : Var → Bool := fun v =>
  match v with
  | Var.assign k => k.day == 0
  | Var.yv _ _ d _ => d == 0
  | Var.startv _ _ d h => d == 0 && h == 0

/-- The solve statuses named by the spec. -/
inductive Status where
  | OPTIMAL
  | FEASIBLE
  | INFEASIBLE
  | UNKNOWN
  | MODEL_INVALID
deriving DecidableEq

/-- Mirrors `solver.StatusName()`. -/
def statusName : Status → String
  | Status.OPTIMAL => "OPTIMAL"
  | Status.FEASIBLE => "FEASIBLE"
  | Status.INFEASIBLE => "INFEASIBLE"
  | Status.UNKNOWN => "UNKNOWN"
  | Status.MODEL_INVALID => "MODEL_INVALID"

/-- Observable outcome of `print_timetables`: the per-group tables, or the
"No feasible solution found." message. -/
inductive PTOutput where
  | tables (ts : List (String × List (List String)))
  | noFeasible
deriving DecidableEq

/-- Sequencing a fallible computation over a list, mirroring a Python loop
that stops at the first raised exception. -/
def exceptMap {α β : Type} (f : α → Except String β) : List α → Except String (List β)
  | [] => Except.ok []
  | a :: l => do
      let b ← f a
      let r ← exceptMap f l
      pure (b :: r)

/-- Lines 169–175, inner loops of one cell: scan the subjects; for each
course-matching subject evaluate the global `all_teachers` (raising
`NameError` when undefined) and overwrite the cell content with
`subject.name (teacher.name)` for every certified teacher whose variable for
this slot exists and is 1. -/
def cellScan (envTeachers : Option (List Teacher)) (value : SKey → Bool)
    (asg : List SKey) (group course : String) (d h : Nat) :
    List Subject → String → Except String String
  | [], acc => Except.ok acc
  | subject :: rest, acc =>
    if subject.course = course then
      match envTeachers with
      | none => Except.error "NameError: all_teachers"
      | some ts =>
        cellScan envTeachers value asg group course d h rest
          (ts.foldl (fun acc2 teacher =>
            if subject ∈ teacher.subjects then
              if (⟨group, subject.id, teacher.id, d, h⟩ : SKey) ∈ asg ∧
                  value ⟨group, subject.id, teacher.id, d, h⟩ = true then
                subject.name ++ " (" ++ teacher.name ++ ")"
              else acc2
            else acc2) acc)
    else cellScan envTeachers value asg group course d h rest acc

/-- One cell: evaluate the global `all_subjects`, scan it, and render `-`
when the content stayed empty. -/
def cellFor (envSubjects : Option (List Subject)) (envTeachers : Option (List Teacher))
    (value : SKey → Bool) (asg : List SKey) (group course : String)
    (d h : Nat) : Except String String :=
  match envSubjects with
  | none => Except.error "NameError: all_subjects"
  | some subs =>
      (cellScan envTeachers value asg group course d h subs "").map
        (fun content => if content = "" then "-" else content)

/-- One row of a group's table: the hour label followed by one cell per day. -/
def rowFor (envSubjects : Option (List Subject)) (envTeachers : Option (List Teacher))
    (value : SKey → Bool) (asg : List SKey) (group course : String)
    (num_days : Nat) (h : Nat) : Except String (List String) := do
  let cells ← exceptMap (fun d => cellFor envSubjects envTeachers value asg group course d h)
    (List.range num_days)
  pure (("Hour " ++ toString h) :: cells)

/-- One group's table: the group name with its grid of rows. -/
def tableFor (envSubjects : Option (List Subject)) (envTeachers : Option (List Teacher))
    (value : SKey → Bool) (asg : List SKey) (num_days num_hours : Nat)
    (group : String) : Except String (String × List (List String)) := do
  let rows ← exceptMap
    (rowFor envSubjects envTeachers value asg group (courseOf group) num_days)
    (List.range num_hours)
  pure (group, rows)

/-- Lines 159–181 of `print_timetables`: when the status name is FEASIBLE or
OPTIMAL, evaluate the global `all_groups` (raising `NameError` when
undefined) and build one table per group; otherwise report that no feasible
solution was found, touching neither the globals nor any variable value. -/
def printTimetables (envGroups : Option (List String))
    (envSubjects : Option (List Subject)) (envTeachers : Option (List Teacher))
    (status : Status) (value : SKey → Bool) (asg : List SKey)
    (num_days num_hours : Nat) : Except String PTOutput :=
  if statusName status ∈ ["FEASIBLE", "OPTIMAL"] then
    match envGroups with
    | none => Except.error "NameError: all_groups"
    | some gs => do
        let ts ← exceptMap (tableFor envSubjects envTeachers value asg num_days num_hours) gs
        pure (PTOutput.tables ts)
  else
    Except.ok PTOutput.noFeasible

/-! Basic lemmas about linear-term evaluation and counting. -/

lemma evalTerms_nil (σ : Var → Bool) : evalTerms σ [] = 0 := rfl

lemma evalTerms_cons (σ : Var → Bool) (c : Int) (v : Var) (t : List (Int × Var)) :
    evalTerms σ ((c, v) :: t) = c * b2i (σ v) + evalTerms σ t := by
  simp [evalTerms]

lemma evalTerms_append (σ : Var → Bool) (t1 t2 : List (Int × Var)) :
    evalTerms σ (t1 ++ t2) = evalTerms σ t1 + evalTerms σ t2 := by
  simp [evalTerms]

lemma evalTerms_ones {α : Type} (σ : Var → Bool) (f : α → Var) (l : List α) :
    evalTerms σ (l.map (fun a => ((1 : Int), f a))) =
      (l.countP (fun a => σ (f a)) : Int) := by
  induction l with
  | nil => rfl
  | cons a l ih =>
      rw [List.map_cons, evalTerms_cons, ih, List.countP_cons]
      cases h : σ (f a)
      · simp [b2i, h]
      · simp [b2i, h]
        omega

lemma countP_ext {α : Type} (l : List α) (p q : α → Bool)
    (h : ∀ a ∈ l, p a = q a) : l.countP p = l.countP q :=
  List.countP_congr (fun a ha => by rw [h a ha])

lemma countP_filter_and {α : Type} (l : List α) (p q : α → Bool) :
    (l.filter q).countP p = l.countP (fun a => q a && p a) := by
  rw [List.countP_filter]
  exact countP_ext l _ _ (fun a _ => Bool.and_comm (p a) (q a))

lemma mem_if_nil {α : Type} {p : Prop} [Decidable p] {l : List α} {a : α} :
    a ∈ (if p then l else []) ↔ p ∧ a ∈ l := by
  split
  · next h => simp [h]
  · next h => simp [h]

/-! The key set of the `assignments` dictionary. -/

lemma mem_foldl_insertKey (ks : List SKey) :
    ∀ (init : List SKey) (k : SKey),
      k ∈ ks.foldl insertKey init ↔ k ∈ init ∨ k ∈ ks := by
  induction ks with
  | nil => simp
  | cons a ks ih =>
      intro init k
      rw [List.foldl_cons, ih]
      unfold insertKey
      split
      · next h =>
          simp only [List.mem_cons]
          constructor
          · intro hc
            rcases hc with hc | hc
            · exact Or.inl hc
            · exact Or.inr (Or.inr hc)
          · intro hc
            rcases hc with hc | hc | hc
            · exact Or.inl hc
            · exact Or.inl (hc ▸ h)
            · exact Or.inr hc
      · simp only [List.mem_append, List.mem_singleton, List.mem_cons]
        tauto

lemma mem_dictKeys_iff {D H : Nat} {gs : List String} {ss : List Subject}
    {ts : List Teacher} {k : SKey} :
    k ∈ dictKeys D H gs ss ts ↔ k ∈ rawKeys D H gs ss ts := by
  unfold dictKeys
  rw [mem_foldl_insertKey]
  simp

lemma mem_rawKeys_iff {D H : Nat} {gs : List String} {ss : List Subject}
    {ts : List Teacher} {k : SKey} :
    k ∈ rawKeys D H gs ss ts ↔
      ∃ g ∈ gs, ∃ s ∈ ss, s.course = courseOf g ∧ ∃ t ∈ ts, s ∈ t.subjects ∧
        ∃ d, d < D ∧ ∃ h, h < H ∧ k = ⟨g, s.id, t.id, d, h⟩ := by
  unfold rawKeys
  simp only [List.mem_flatMap, mem_if_nil, List.mem_map, List.mem_range]
  constructor
  · rintro ⟨g, hg, s, hs, hc, t, ht, hcert, d, hd, h, hh, hk⟩
    exact ⟨g, hg, s, hs, hc, t, ht, hcert, d, hd, h, hh, hk.symm⟩
  · rintro ⟨g, hg, s, hs, hc, t, ht, hcert, d, hd, h, hh, hk⟩
    exact ⟨g, hg, s, hs, hc, t, ht, hcert, d, hd, h, hh, hk.symm⟩

/-! Membership of each constraint family in the model. -/

lemma quota_mem {keys : List SKey} {gs : List String} {ss : List Subject}
    {g : String} {s : Subject} (hg : g ∈ gs) (hs : s ∈ ss)
    (hc : s.course = courseOf g) :
    Constr.linEq ((keys.filter (keyGS g s.id)).map
        (fun k => ((1 : Int), Var.assign k))) (s.weekly_hours : Int) ∈
      quotaConstrs keys gs ss := by
  unfold quotaConstrs
  refine List.mem_flatMap.2 ⟨g, hg, ?_⟩
  refine List.mem_flatMap.2 ⟨s, hs, ?_⟩
  rw [if_pos hc]
  exact List.mem_singleton.2 rfl

lemma amo_mem {keys : List SKey} {ts : List Teacher} {D H : Nat}
    {t : Teacher} {d h : Nat} (ht : t ∈ ts) (hd : d < D) (hh : h < H) :
    Constr.atMostOne ((keys.filter (keyTDH t.id d h)).map Var.assign) ∈
      amoConstrs keys ts D H := by
  unfold amoConstrs
  refine List.mem_flatMap.2 ⟨t, ht, ?_⟩
  refine List.mem_flatMap.2 ⟨d, List.mem_range.2 hd, ?_⟩
  exact List.mem_map.2 ⟨h, List.mem_range.2 hh, rfl⟩

lemma workload_mem {keys : List SKey} {ts : List Teacher} {t : Teacher}
    (ht : t ∈ ts) :
    Constr.linLe ((keys.filter (keyT t.id)).map
        (fun k => ((1 : Int), Var.assign k))) (t.max_hours_week : Int) ∈
      workloadConstrs keys ts :=
  List.mem_map.2 ⟨t, ht, rfl⟩

lemma daily_mem {keys : List SKey} {gs : List String} {ss : List Subject}
    {ts : List Teacher} {D : Nat} {g : String} {s : Subject} {t : Teacher}
    {d : Nat} (hg : g ∈ gs) (hs : s ∈ ss) (hc : s.course = courseOf g)
    (ht : t ∈ ts) (hcert : s ∈ t.subjects) (hd : d < D) :
    Constr.linLe ((keys.filter (keyGSTD g s.id t.id d)).map
        (fun k => ((1 : Int), Var.assign k))) (s.max_hours_per_day : Int) ∈
      dailyConstrs keys gs ss ts D := by
  unfold dailyConstrs
  refine List.mem_flatMap.2 ⟨g, hg, ?_⟩
  refine List.mem_flatMap.2 ⟨s, hs, ?_⟩
  rw [if_pos hc]
  refine List.mem_flatMap.2 ⟨t, ht, ?_⟩
  rw [if_pos hcert]
  exact List.mem_map.2 ⟨d, List.mem_range.2 hd, rfl⟩

lemma contig_mem {keys : List SKey} {gs : List String} {ss : List Subject}
    {D H : Nat} {g : String} {s : Subject} {d : Nat} {c : Constr}
    (hg : g ∈ gs) (hs : s ∈ ss) (hc : s.course = courseOf g) (hd : d < D)
    (hcb : c ∈ contigBlock keys g s.id d H) :
    c ∈ contigConstrs keys gs ss D H := by
  unfold contigConstrs
  refine List.mem_flatMap.2 ⟨g, hg, ?_⟩
  refine List.mem_flatMap.2 ⟨s, hs, ?_⟩
  rw [if_pos hc]
  exact List.mem_flatMap.2 ⟨d, List.mem_range.2 hd, hcb⟩

lemma buildModel_of_quota {D H : Nat} {gs : List String} {ss : List Subject}
    {ts : List Teacher} {c : Constr}
    (h : c ∈ quotaConstrs (dictKeys D H gs ss ts) gs ss) :
    c ∈ buildModel D H gs ss ts := by
  unfold buildModel
  simp only [List.mem_append]
  tauto

lemma buildModel_of_amo {D H : Nat} {gs : List String} {ss : List Subject}
    {ts : List Teacher} {c : Constr}
    (h : c ∈ amoConstrs (dictKeys D H gs ss ts) ts D H) :
    c ∈ buildModel D H gs ss ts := by
  unfold buildModel
  simp only [List.mem_append]
  tauto

lemma buildModel_of_workload {D H : Nat} {gs : List String} {ss : List Subject}
    {ts : List Teacher} {c : Constr}
    (h : c ∈ workloadConstrs (dictKeys D H gs ss ts) ts) :
    c ∈ buildModel D H gs ss ts := by
  unfold buildModel
  simp only [List.mem_append]
  tauto

lemma buildModel_of_daily {D H : Nat} {gs : List String} {ss : List Subject}
    {ts : List Teacher} {c : Constr}
    (h : c ∈ dailyConstrs (dictKeys D H gs ss ts) gs ss ts D) :
    c ∈ buildModel D H gs ss ts := by
  unfold buildModel
  simp only [List.mem_append]
  tauto

lemma buildModel_of_contig {D H : Nat} {gs : List String} {ss : List Subject}
    {ts : List Teacher} {c : Constr}
    (h : c ∈ contigConstrs (dictKeys D H gs ss ts) gs ss D H) :
    c ∈ buildModel D H gs ss ts := by
  unfold buildModel
  simp only [List.mem_append]
  tauto

/-! Consequences of a constraint holding under a valuation. -/

lemma holds_linEq {σ : Var → Bool} {terms : List (Int × Var)} {rhs : Int}
    (h : Constr.holds σ (Constr.linEq terms rhs) = true) :
    evalTerms σ terms = rhs := by
  simpa [Constr.holds] using h

lemma holds_linLe {σ : Var → Bool} {terms : List (Int × Var)} {rhs : Int}
    (h : Constr.holds σ (Constr.linLe terms rhs) = true) :
    evalTerms σ terms ≤ rhs := by
  simpa [Constr.holds] using h

lemma holds_linGe {σ : Var → Bool} {terms : List (Int × Var)} {rhs : Int}
    (h : Constr.holds σ (Constr.linGe terms rhs) = true) :
    rhs ≤ evalTerms σ terms := by
  simpa [Constr.holds] using h

lemma holds_amo {σ : Var → Bool} {vs : List Var}
    (h : Constr.holds σ (Constr.atMostOne vs) = true) :
    vs.countP σ ≤ 1 := by
  simpa [Constr.holds] using h

lemma quota_sat {D H : Nat} {gs : List String} {ss : List Subject}
    {ts : List Teacher} {σ : Var → Bool} (hsat : ModelSat D H gs ss ts σ)
    {g : String} {s : Subject} (hg : g ∈ gs) (hs : s ∈ ss)
    (hc : s.course = courseOf g) :
    (dictKeys D H gs ss ts).countP
        (fun k => keyGS g s.id k && σ (Var.assign k)) = s.weekly_hours := by
  have h1 := holds_linEq (hsat _ (buildModel_of_quota (quota_mem hg hs hc)))
  rw [evalTerms_ones, countP_filter_and] at h1
  exact_mod_cast h1

lemma amo_sat {D H : Nat} {gs : List String} {ss : List Subject}
    {ts : List Teacher} {σ : Var → Bool} (hsat : ModelSat D H gs ss ts σ)
    {t : Teacher} (ht : t ∈ ts) {d h : Nat} (hd : d < D) (hh : h < H) :
    (dictKeys D H gs ss ts).countP
        (fun k => keyTDH t.id d h k && σ (Var.assign k)) ≤ 1 := by
  have h1 := holds_amo (hsat _ (buildModel_of_amo (amo_mem ht hd hh)))
  rw [List.countP_map, countP_filter_and] at h1
  exact h1

lemma workload_sat {D H : Nat} {gs : List String} {ss : List Subject}
    {ts : List Teacher} {σ : Var → Bool} (hsat : ModelSat D H gs ss ts σ)
    {t : Teacher} (ht : t ∈ ts) :
    (dictKeys D H gs ss ts).countP
        (fun k => keyT t.id k && σ (Var.assign k)) ≤ t.max_hours_week := by
  have h1 := holds_linLe (hsat _ (buildModel_of_workload (workload_mem ht)))
  rw [evalTerms_ones, countP_filter_and] at h1
  exact_mod_cast h1

lemma daily_sat {D H : Nat} {gs : List String} {ss : List Subject}
    {ts : List Teacher} {σ : Var → Bool} (hsat : ModelSat D H gs ss ts σ)
    {g : String} {s : Subject} {t : Teacher} {d : Nat} (hg : g ∈ gs)
    (hs : s ∈ ss) (hc : s.course = courseOf g) (ht : t ∈ ts)
    (hcert : s ∈ t.subjects) (hd : d < D) :
    (dictKeys D H gs ss ts).countP
        (fun k => keyGSTD g s.id t.id d k && σ (Var.assign k)) ≤
      s.max_hours_per_day := by
  have h1 := holds_linLe (hsat _ (buildModel_of_daily (daily_mem hg hs hc ht hcert hd)))
  rw [evalTerms_ones, countP_filter_and] at h1
  exact_mod_cast h1

/-! The contiguity block: consequences for the auxiliary variables. -/

lemma ylink_mem_contigBlock {keys : List SKey} {g sid : String} {d H h : Nat}
    (hh : h < H) : yLinkConstr keys g sid d h ∈ contigBlock keys g sid d H :=
  List.mem_append.2 (Or.inl (List.mem_map.2 ⟨h, List.mem_range.2 hh, rfl⟩))

lemma startConstr_mem_contigBlock {keys : List SKey} {g sid : String}
    {d H h : Nat} {c : Constr} (hh : h < H) (hc : c ∈ startConstrs g sid d h) :
    c ∈ contigBlock keys g sid d H :=
  List.mem_append.2 (Or.inr (List.mem_append.2 (Or.inl
    (List.mem_flatMap.2 ⟨h, List.mem_range.2 hh, hc⟩))))

lemma startSum_mem_contigBlock {keys : List SKey} {g sid : String} {d H : Nat} :
    Constr.linLe ((List.range H).map
        (fun h => ((1 : Int), Var.startv g sid d h))) 1 ∈
      contigBlock keys g sid d H :=
  List.mem_append.2 (Or.inr (List.mem_append.2 (Or.inr (List.mem_singleton.2 rfl))))

lemma contig_holds {D H : Nat} {gs : List String} {ss : List Subject}
    {ts : List Teacher} {σ : Var → Bool} (hsat : ModelSat D H gs ss ts σ)
    {g : String} {s : Subject} (hg : g ∈ gs) (hs : s ∈ ss)
    (hc : s.course = courseOf g) {d : Nat} (hd : d < D) {c : Constr}
    (hmem : c ∈ contigBlock (dictKeys D H gs ss ts) g s.id d H) :
    Constr.holds σ c = true :=
  hsat _ (buildModel_of_contig (contig_mem hg hs hc hd hmem))

lemma ylink_sat {keys : List SKey} {σ : Var → Bool} {g sid : String}
    {d h : Nat} (hc : Constr.holds σ (yLinkConstr keys g sid d h) = true) :
    (keys.countP (fun k => keyGSDH g sid d h k && σ (Var.assign k)) : Int) =
      b2i (σ (Var.yv g sid d h)) := by
  unfold yLinkConstr at hc
  split at hc
  · next he =>
      have hnil : keys.filter (keyGSDH g sid d h) = [] := List.isEmpty_iff.1 he
      have h1 := holds_linEq hc
      rw [evalTerms_cons, evalTerms_nil] at h1
      have h2 : keys.countP (fun k => keyGSDH g sid d h k && σ (Var.assign k)) = 0 := by
        rw [← countP_filter_and, hnil]
        rfl
      rw [h2]
      simp only [Nat.cast_zero]
      omega
  · next he =>
      have h1 := holds_linEq hc
      rw [evalTerms_append, evalTerms_ones, evalTerms_cons, evalTerms_nil,
        countP_filter_and] at h1
      omega

lemma y_iff_cnt_pos {keys : List SKey} {σ : Var → Bool} {g sid : String}
    {d h : Nat} (hc : Constr.holds σ (yLinkConstr keys g sid d h) = true) :
    σ (Var.yv g sid d h) =
      keys.any (fun k => keyGSDH g sid d h k && σ (Var.assign k)) := by
  have h1 := ylink_sat hc
  rcases hy : σ (Var.yv g sid d h) with _ | _ <;> rw [hy] at h1
  · have h2 : keys.countP (fun k => keyGSDH g sid d h k && σ (Var.assign k)) = 0 := by
      have h3 : (keys.countP (fun k => keyGSDH g sid d h k && σ (Var.assign k)) : Int) = 0 := h1
      exact_mod_cast h3
    rw [List.countP_eq_zero] at h2
    symm
    simp only [List.any_eq_false]
    intro k hk
    exact h2 k hk
  · have h2 : 0 < keys.countP (fun k => keyGSDH g sid d h k && σ (Var.assign k)) := by
      have h3 : (keys.countP (fun k => keyGSDH g sid d h k && σ (Var.assign k)) : Int) = 1 := h1
      have h4 : keys.countP (fun k => keyGSDH g sid d h k && σ (Var.assign k)) = 1 := by
        exact_mod_cast h3
      omega
    rw [List.countP_pos_iff] at h2
    symm
    rw [List.any_eq_true]
    obtain ⟨k, hk, hpk⟩ := h2
    exact ⟨k, hk, hpk⟩

lemma start0_forced {σ : Var → Bool} {g sid : String} {d : Nat}
    (hc : Constr.holds σ (Constr.linEq [((1 : Int), Var.startv g sid d 0),
        ((-1 : Int), Var.yv g sid d 0)] 0) = true) :
    σ (Var.startv g sid d 0) = σ (Var.yv g sid d 0) := by
  have h1 := holds_linEq hc
  rw [evalTerms_cons, evalTerms_cons, evalTerms_nil] at h1
  cases ha : σ (Var.startv g sid d 0) <;> cases hb : σ (Var.yv g sid d 0) <;>
    simp [ha, hb, b2i] at h1 ⊢

lemma start_pos_forced {σ : Var → Bool} {g sid : String} {d h : Nat}
    (hge : Constr.holds σ (Constr.linGe [((1 : Int), Var.startv g sid d h),
        ((-1 : Int), Var.yv g sid d h),
        ((1 : Int), Var.yv g sid d (h - 1))] 0) = true)
    (hle1 : Constr.holds σ (Constr.linLe [((1 : Int), Var.startv g sid d h),
        ((-1 : Int), Var.yv g sid d h)] 0) = true)
    (hle2 : Constr.holds σ (Constr.linLe [((1 : Int), Var.startv g sid d h),
        ((1 : Int), Var.yv g sid d (h - 1))] 1) = true) :
    σ (Var.startv g sid d h) =
      (σ (Var.yv g sid d h) && !(σ (Var.yv g sid d (h - 1)))) := by
  have h1 := holds_linGe hge
  have h2 := holds_linLe hle1
  have h3 := holds_linLe hle2
  rw [evalTerms_cons, evalTerms_cons, evalTerms_cons, evalTerms_nil] at h1
  rw [evalTerms_cons, evalTerms_cons, evalTerms_nil] at h2
  rw [evalTerms_cons, evalTerms_cons, evalTerms_nil] at h3
  cases ha : σ (Var.startv g sid d h) <;> cases hb : σ (Var.yv g sid d h) <;>
    cases hcc : σ (Var.yv g sid d (h - 1)) <;>
      simp [ha, hb, hcc, b2i] at h1 h2 h3 ⊢

lemma startRel_sat {D H : Nat} {gs : List String} {ss : List Subject}
    {ts : List Teacher} {σ : Var → Bool} (hsat : ModelSat D H gs ss ts σ)
    {g : String} {s : Subject} (hg : g ∈ gs) (hs : s ∈ ss)
    (hc : s.course = courseOf g) {d : Nat} (hd : d < D) :
    startRel H (fun h => σ (Var.yv g s.id d h))
      (fun h => σ (Var.startv g s.id d h)) := by
  intro h hh
  rcases Nat.eq_zero_or_pos h with h0 | hpos
  · subst h0
    simp only [if_pos rfl]
    exact start0_forced (contig_holds hsat hg hs hc hd
      (startConstr_mem_contigBlock hh (by simp [startConstrs])))
  · have hne : h ≠ 0 := Nat.pos_iff_ne_zero.1 hpos
    have hmem : ∀ c ∈ startConstrs g s.id d h,
        c ∈ contigBlock (dictKeys D H gs ss ts) g s.id d H :=
      fun c hcm => startConstr_mem_contigBlock hh hcm
    rw [if_neg hne]
    refine start_pos_forced
      (contig_holds hsat hg hs hc hd (hmem _ ?_))
      (contig_holds hsat hg hs hc hd (hmem _ ?_))
      (contig_holds hsat hg hs hc hd (hmem _ ?_)) <;>
    simp [startConstrs, hne]

lemma startSum_sat {D H : Nat} {gs : List String} {ss : List Subject}
    {ts : List Teacher} {σ : Var → Bool} (hsat : ModelSat D H gs ss ts σ)
    {g : String} {s : Subject} (hg : g ∈ gs) (hs : s ∈ ss)
    (hc : s.course = courseOf g) {d : Nat} (hd : d < D) :
    (List.range H).countP (fun h => σ (Var.startv g s.id d h)) ≤ 1 := by
  have h1 := holds_linLe (contig_holds hsat hg hs hc hd startSum_mem_contigBlock)
  rw [evalTerms_ones σ (fun h => Var.startv g s.id d h)] at h1
  exact_mod_cast h1

/-! Pure facts about start chains, edge detectors and split patterns. -/

lemma exists_start_le (H : Nat) (y st : Nat → Bool) (hrel : startRel H y st) :
    ∀ h1, h1 < H → y h1 = true → ∃ m, m ≤ h1 ∧ st m = true := by
  intro h1
  induction h1 with
  | zero =>
      intro hH hy
      refine ⟨0, Nat.le_refl 0, ?_⟩
      rw [hrel 0 hH]
      simpa using hy
  | succ n ih =>
      intro hH hy
      rcases hyn : y n with _ | _
      · refine ⟨n + 1, Nat.le_refl _, ?_⟩
        rw [hrel (n + 1) hH]
        simp [hy, hyn]
      · obtain ⟨m, hm, hst⟩ := ih (Nat.lt_of_succ_lt hH) hyn
        exact ⟨m, Nat.le_succ_of_le hm, hst⟩

lemma exists_start_between (H : Nat) (y st : Nat → Bool) (hrel : startRel H y st) :
    ∀ h3 h2, h2 < h3 → h3 < H → y h2 = false → y h3 = true →
      ∃ m, h2 < m ∧ m ≤ h3 ∧ st m = true := by
  intro h3
  induction h3 with
  | zero =>
      intro h2 h23 _ _ _
      exact absurd h23 (Nat.not_lt_zero h2)
  | succ n ih =>
      intro h2 h23 hH hy2 hy3
      rcases hyn : y n with _ | _
      · refine ⟨n + 1, h23, Nat.le_refl _, ?_⟩
        rw [hrel (n + 1) hH]
        simp [hy3, hyn]
      · have hne : h2 ≠ n := by
          intro he
          rw [he, hyn] at hy2
          exact Bool.noConfusion hy2
        have h2n : h2 < n := by omega
        obtain ⟨m, hm1, hm2, hst⟩ := ih h2 h2n (Nat.lt_of_succ_lt hH) hy2 hyn
        exact ⟨m, hm1, Nat.le_succ_of_le hm2, hst⟩

lemma two_le_length_of_mem {α : Type} {l : List α} {a b : α}
    (ha : a ∈ l) (hb : b ∈ l) (hab : a ≠ b) : 2 ≤ l.length := by
  match l with
  | [] => exact absurd ha (List.not_mem_nil a)
  | [x] =>
      rw [List.mem_singleton] at ha hb
      exact absurd (ha.trans hb.symm) hab
  | x :: y :: t =>
      simp only [List.length_cons]
      omega

lemma countP_range_two_le (H : Nat) (p : Nat → Bool) (m1 m2 : Nat)
    (h12 : m1 ≠ m2) (h1H : m1 < H) (h2H : m2 < H)
    (hp1 : p m1 = true) (hp2 : p m2 = true) :
    2 ≤ (List.range H).countP p := by
  rw [List.countP_eq_length_filter]
  exact two_le_length_of_mem
    (List.mem_filter.2 ⟨List.mem_range.2 h1H, hp1⟩)
    (List.mem_filter.2 ⟨List.mem_range.2 h2H, hp2⟩) h12

lemma noSplit_of_startChain (H : Nat) (y st : Nat → Bool)
    (hrel : startRel H y st) (hsum : (List.range H).countP st ≤ 1) :
    NoSplit H y := by
  intro h1 h2 h3 h12 h23 h3H hy1 hy2 hy3
  obtain ⟨m1, hm1, hst1⟩ := exists_start_le H y st hrel h1 (by omega) hy1
  obtain ⟨m2, hm2a, hm2b, hst2⟩ :=
    exists_start_between H y st hrel h3 h2 h23 h3H hy2 hy3
  have h2le := countP_range_two_le H st m1 m2
    (by omega) (by omega) (by omega) hst1 hst2
  omega

lemma noSplit_congr {H : Nat} {f g : Nat → Bool}
    (h : ∀ h1, h1 < H → f h1 = g h1) (hf : NoSplit H f) : NoSplit H g := by
  intro h1 h2 h3 h12 h23 h3H hg1 hg2 hg3
  exact hf h1 h2 h3 h12 h23 h3H
    ((h h1 (by omega)).trans hg1)
    ((h h2 (by omega)).trans hg2)
    ((h h3 (by omega)).trans hg3)

lemma countP_le_one_of_no_two {H : Nat} {p : Nat → Bool}
    (h : ∀ m1 m2, m1 < m2 → m2 < H → p m1 = true → p m2 = true → False) :
    (List.range H).countP p ≤ 1 := by
  rw [List.countP_eq_length_filter]
  rcases hl : (List.range H).filter p with _ | ⟨a, _ | ⟨b, t⟩⟩
  · simp
  · simp
  · exfalso
    have hnd : ((List.range H).filter p).Nodup :=
      List.Nodup.filter p (List.nodup_range H)
    have hab : a ≠ b := by
      rw [hl] at hnd
      simp only [List.nodup_cons, List.mem_cons] at hnd
      intro he
      exact hnd.1 (Or.inl he)
    have ha : a ∈ (List.range H).filter p := by
      rw [hl]
      exact List.mem_cons_self a _
    have hb : b ∈ (List.range H).filter p := by
      rw [hl]
      exact List.mem_cons_of_mem a (List.mem_cons_self b t)
    obtain ⟨haR, hpa⟩ := List.mem_filter.1 ha
    obtain ⟨hbR, hpb⟩ := List.mem_filter.1 hb
    rcases Nat.lt_or_ge a b with hlt | hge
    · exact h a b hlt (List.mem_range.1 hbR) hpa hpb
    · have hba : b < a := by omega
      exact h b a hba (List.mem_range.1 haR) hpb hpa

lemma edge_count_le_one {H : Nat} {occ : Nat → Bool} (hns : NoSplit H occ) :
    (List.range H).countP (edgeOf occ) ≤ 1 := by
  apply countP_le_one_of_no_two
  intro m1 m2 h12 h2H he1 he2
  have hm2pos : ¬ m2 = 0 := by omega
  rw [edgeOf, if_neg hm2pos, Bool.and_eq_true, Bool.not_eq_true'] at he2
  obtain ⟨hocc2, hocc2p⟩ := he2
  have hocc1 : occ m1 = true := by
    rw [edgeOf] at he1
    split at he1
    · next h0 =>
        rw [h0]
        exact he1
    · rw [Bool.and_eq_true] at he1
      exact he1.1
  have hne : m1 ≠ m2 - 1 := by
    intro he
    rw [he, hocc2p] at hocc1
    exact Bool.noConfusion hocc1
  exact hns m1 (m2 - 1) m2 (by omega) (by omega) h2H hocc1 hocc2p hocc2

lemma startBlock_satisfiable (g sid : String) (d H : Nat) (occ : Nat → Bool)
    (hns : NoSplit H occ) :
    ∀ c ∈ startBlock g sid d H, Constr.holds (edgeValuation occ) c = true := by
  intro c hcm
  rw [startBlock] at hcm
  rcases List.mem_append.1 hcm with hcm | hcm
  · obtain ⟨h, hhr, hcs⟩ := List.mem_flatMap.1 hcm
    rw [startConstrs] at hcs
    by_cases h0 : h = 0
    · rw [if_pos h0, List.mem_singleton] at hcs
      subst hcs
      cases ho : occ 0 <;>
        simp [Constr.holds, evalTerms_cons, evalTerms_nil, edgeValuation,
          edgeOf, b2i, ho]
    · rw [if_neg h0] at hcs
      simp only [List.mem_cons, List.not_mem_nil, or_false] at hcs
      rcases hcs with rfl | rfl | rfl <;>
        cases h1 : occ h <;> cases h2 : occ (h - 1) <;>
          simp [Constr.holds, evalTerms_cons, evalTerms_nil, edgeValuation,
            edgeOf, b2i, h0, h1, h2]
  · rw [List.mem_singleton] at hcm
    subst hcm
    have h1 : evalTerms (edgeValuation occ)
        ((List.range H).map (fun h => ((1 : Int), Var.startv g sid d h))) =
        ((List.range H).countP
          (fun h => edgeValuation occ (Var.startv g sid d h)) : Int) :=
      evalTerms_ones (edgeValuation occ) (fun h => Var.startv g sid d h) (List.range H)
    have h2 : (List.range H).countP
        (fun h => edgeValuation occ (Var.startv g sid d h)) ≤ 1 :=
      edge_count_le_one hns
    simp only [Constr.holds, h1, decide_eq_true_eq]
    exact_mod_cast h2

/-! Aggregated occupancy of a solution has no split day pattern. -/

lemma model_noSplit {D H : Nat} {gs : List String} {ss : List Subject}
    {ts : List Teacher} {σ : Var → Bool} (hsat : ModelSat D H gs ss ts σ)
    {g : String} {s : Subject} (hg : g ∈ gs) (hs : s ∈ ss)
    (hc : s.course = courseOf g) {d : Nat} (hd : d < D) :
    NoSplit H (fun h => (dictKeys D H gs ss ts).any
      (fun k => keyGSDH g s.id d h k && σ (Var.assign k))) := by
  have hrel := startRel_sat hsat hg hs hc hd
  have hsum := startSum_sat hsat hg hs hc hd
  have hns := noSplit_of_startChain H _ _ hrel hsum
  refine noSplit_congr ?_ hns
  intro h hh
  exact y_iff_cnt_pos (contig_holds hsat hg hs hc hd (ylink_mem_contigBlock hh))

/-! Counting two disjoint sub-populations against a common bound. -/

lemma countP_add_le {α : Type} (l : List α) (p q r : α → Bool)
    (hpr : ∀ a ∈ l, p a = true → r a = true)
    (hqr : ∀ a ∈ l, q a = true → r a = true)
    (hpq : ∀ a ∈ l, ¬(p a = true ∧ q a = true)) :
    l.countP p + l.countP q ≤ l.countP r := by
  induction l with
  | nil => simp
  | cons a l ih =>
      have ih2 := ih (fun x hx => hpr x (List.mem_cons_of_mem a hx))
        (fun x hx => hqr x (List.mem_cons_of_mem a hx))
        (fun x hx => hpq x (List.mem_cons_of_mem a hx))
      have hamem := List.mem_cons_self a l
      rw [List.countP_cons, List.countP_cons, List.countP_cons]
      rcases hp : p a with _ | _ <;> rcases hq : q a with _ | _
      · rcases hr : r a with _ | _ <;> simp [hp, hq, hr] <;> omega
      · rw [hqr a hamem hq]
        simp [hp, hq]
        omega
      · rw [hpr a hamem hp]
        simp [hp, hq]
        omega
      · exact absurd ⟨hp, hq⟩ (hpq a hamem)

/-! The tables produced by the printer carry exactly the groups of the
`all_groups` global. -/

lemma tableFor_fst {es : Option (List Subject)} {et : Option (List Teacher)}
    {value : SKey → Bool} {asg : List SKey} {D H : Nat} {g : String}
    {b : String × List (List String)}
    (h : tableFor es et value asg D H g = Except.ok b) : b.1 = g := by
  unfold tableFor at h
  cases hrows : exceptMap (rowFor es et value asg g (courseOf g) D) (List.range H) with
  | error e =>
      rw [hrows] at h
      simp [Bind.bind, Except.bind] at h
  | ok rows =>
      rw [hrows] at h
      simp only [Bind.bind, Except.bind, Pure.pure, Except.pure, Except.ok.injEq] at h
      rw [← h]

lemma exceptMap_tableFor_fst {es : Option (List Subject)}
    {et : Option (List Teacher)} {value : SKey → Bool} {asg : List SKey}
    {D H : Nat} :
    ∀ (gs : List String) (l : List (String × List (List String))),
      exceptMap (tableFor es et value asg D H) gs = Except.ok l →
        l.map Prod.fst = gs := by
  intro gs
  induction gs with
  | nil =>
      intro l h
      simp only [exceptMap, Except.ok.injEq] at h
      rw [← h]
      rfl
  | cons g gs ih =>
      intro l h
      unfold exceptMap at h
      cases hb : tableFor es et value asg D H g with
      | error e =>
          rw [hb] at h
          simp [Bind.bind, Except.bind] at h
      | ok b =>
          rw [hb] at h
          cases hr : exceptMap (tableFor es et value asg D H) gs with
          | error e =>
              rw [hr] at h
              simp [Bind.bind, Except.bind] at h
          | ok r =>
              rw [hr] at h
              simp only [Bind.bind, Except.bind, Pure.pure, Except.pure,
                Except.ok.injEq] at h
              rw [← h, List.map_cons, ih r hr, tableFor_fst hb]

/-- Claim C1: the `assignments` mapping built by `build_and_solve` contains
an entry for key (group, subject.id, teacher.id, d, h) iff the subject's
course equals the group's course prefix (text before the first `-`) and the
subject is among the teacher's certified subjects, for every d in
[0, num_days) and h in [0, num_hours); and every entry of the mapping is of
this shape (subject and teacher ids are assumed pairwise distinct, as the
spec's data model requires). -/
theorem claim_C1 (D H : Nat) (gs : List String) (ss : List Subject)
    (ts : List Teacher) (hsid : (ss.map Subject.id).Nodup)
    (htid : (ts.map Teacher.id).Nodup) :
    (∀ g ∈ gs, ∀ s ∈ ss, ∀ t ∈ ts, ∀ d h : Nat,
      ((⟨g, s.id, t.id, d, h⟩ : SKey) ∈ dictKeys D H gs ss ts ↔
        (s.course = courseOf g ∧ s ∈ t.subjects ∧ d < D ∧ h < H))) ∧
    (∀ k ∈ dictKeys D H gs ss ts, ∃ g ∈ gs, ∃ s ∈ ss, ∃ t ∈ ts,
      k = ⟨g, s.id, t.id, k.day, k.hour⟩ ∧ s.course = courseOf g ∧
        s ∈ t.subjects ∧ k.day < D ∧ k.hour < H) := by
  constructor
  · intro g hg s hs t ht d h
    rw [mem_dictKeys_iff, mem_rawKeys_iff]
    constructor
    · rintro ⟨g', hg', s', hs', hc', t', ht', hcert', d', hd', h', hh', hk⟩
      injection hk with hgE hsE htE hdE hhE
      subst hgE
      subst hdE
      subst hhE
      have hsEq : s' = s := List.inj_on_of_nodup_map hsid hs' hs hsE.symm
      have htEq : t' = t := List.inj_on_of_nodup_map htid ht' ht htE.symm
      subst hsEq
      subst htEq
      exact ⟨hc', hcert', hd', hh'⟩
    · rintro ⟨hc, hcert, hd, hh⟩
      exact ⟨g, hg, s, hs, hc, t, ht, hcert, d, hd, h, hh, rfl⟩
  · intro k hk
    rw [mem_dictKeys_iff, mem_rawKeys_iff] at hk
    obtain ⟨g, hg, s, hs, hc, t, ht, hcert, d, hd, h, hh, hkE⟩ := hk
    subst hkE
    exact ⟨g, hg, s, hs, t, ht, rfl, hc, hcert, hd, hh⟩

/-- Witness for claim C1 on a concrete fixture. -/
theorem claim_C1_witness :
    ((⟨"1", "m", 1, 0, 0⟩ : SKey) ∈ dictKeys 1 2 ["1"] [subjW] [teachW] ↔
      (subjW.course = courseOf "1" ∧ subjW ∈ teachW.subjects ∧ 0 < 1 ∧ 0 < 2)) :=
  (claim_C1 1 2 ["1"] [subjW] [teachW] (by decide) (by decide)).1 "1" (by decide)
    subjW (by decide) teachW (by decide) 0 0

/-- Claim C2: in every solution accepted by the model, for every group and
every subject whose course matches the group's course prefix, the number of
assignment variables of that (group, subject) pair valued 1 — summed over
all teachers, days and hours — equals exactly the subject's weekly_hours. -/
theorem claim_C2 (D H : Nat) (gs : List String) (ss : List Subject)
    (ts : List Teacher) (σ : Var → Bool) (hsat : ModelSat D H gs ss ts σ)
    (g : String) (hg : g ∈ gs) (s : Subject) (hs : s ∈ ss)
    (hc : s.course = courseOf g) :
    (dictKeys D H gs ss ts).countP
      (fun k => keyGS g s.id k && σ (Var.assign k)) = s.weekly_hours :=
  quota_sat hsat hg hs hc

/-- Witness for claim C2 on a concrete solved fixture. -/
theorem claim_C2_witness :
    (dictKeys 1 2 ["1"] [subjW] [teachW]).countP
      (fun k => keyGS "1" "m" k && sigmaW (Var.assign k)) = 2 :=
  claim_C2 1 2 ["1"] [subjW] [teachW] sigmaW (by decide) "1" (by decide) subjW
    (by decide) (by decide)

/-- Claim C3: in every accepted solution the hours of a (group, subject,
day) with a positive aggregated assignment form at most one contiguous run
(no occupied–free–occupied pattern); conversely the block-start constraints
of the model permit every split-free occupancy pattern, so bounding the
block starts by one is exactly equivalent to ruling out the split
patterns. -/
theorem claim_C3 :
    (∀ (D H : Nat) (gs : List String) (ss : List Subject) (ts : List Teacher)
        (σ : Var → Bool), ModelSat D H gs ss ts σ →
      ∀ g ∈ gs, ∀ s ∈ ss, s.course = courseOf g → ∀ d, d < D →
        NoSplit H (fun h => (dictKeys D H gs ss ts).any
          (fun k => keyGSDH g s.id d h k && σ (Var.assign k)))) ∧
    (∀ (H : Nat) (g sid : String) (d : Nat) (occ : Nat → Bool),
      NoSplit H occ →
        ∃ σ : Var → Bool, (∀ h, h < H → σ (Var.yv g sid d h) = occ h) ∧
          ∀ c ∈ startBlock g sid d H, Constr.holds σ c = true) := by
  constructor
  · intro D H gs ss ts σ hsat g hg s hs hc d hd
    exact model_noSplit hsat hg hs hc hd
  · intro H g sid d occ hns
    exact ⟨edgeValuation occ, fun h _ => rfl,
      startBlock_satisfiable g sid d H occ hns⟩

/-- Witness for claim C3: the no-split property on a concrete solved
fixture, and satisfiability of the start constraints for a concrete
split-free pattern. -/
theorem claim_C3_witness :
    NoSplit 2 (fun h => (dictKeys 1 2 ["1"] [subjW] [teachW]).any
      (fun k => keyGSDH "1" "m" 0 h k && sigmaW (Var.assign k))) ∧
    (∃ σ : Var → Bool, (∀ h, h < 3 → σ (Var.yv "g" "m" 0 h) = true) ∧
      ∀ c ∈ startBlock "g" "m" 0 3, Constr.holds σ c = true) :=
  ⟨claim_C3.1 1 2 ["1"] [subjW] [teachW] sigmaW (by decide) "1" (by decide)
      subjW (by decide) (by decide) 0 (by decide),
   claim_C3.2 3 "g" "m" 0 (fun _ => true)
      (fun _ _ _ _ _ _ _ hf _ => Bool.noConfusion hf)⟩

/-- Claim C4: in the contiguity construction, the occupancy variable of an
hour with no assignment variable is forced to 0; hour 0's block-start
equals hour 0's occupancy; and for every later hour the three registered
linear inequalities are in the model and force the block-start to be 1
exactly when the hour is occupied and the previous hour is not. -/
theorem claim_C4 (D H : Nat) (gs : List String) (ss : List Subject)
    (ts : List Teacher) (σ : Var → Bool) (hsat : ModelSat D H gs ss ts σ)
    (g : String) (hg : g ∈ gs) (s : Subject) (hs : s ∈ ss)
    (hc : s.course = courseOf g) (d : Nat) (hd : d < D) :
    (∀ h, h < H → (dictKeys D H gs ss ts).filter (keyGSDH g s.id d h) = [] →
      σ (Var.yv g s.id d h) = false) ∧
    (0 < H → σ (Var.startv g s.id d 0) = σ (Var.yv g s.id d 0)) ∧
    (∀ h, 0 < h → h < H →
      (∀ c ∈ startConstrs g s.id d h, c ∈ buildModel D H gs ss ts) ∧
      σ (Var.startv g s.id d h) =
        (σ (Var.yv g s.id d h) && !(σ (Var.yv g s.id d (h - 1))))) := by
  refine ⟨?_, ?_, ?_⟩
  · intro h hh hfilter
    have h1 := ylink_sat (contig_holds hsat hg hs hc hd (ylink_mem_contigBlock hh))
    have h2 : (dictKeys D H gs ss ts).countP
        (fun k => keyGSDH g s.id d h k && σ (Var.assign k)) = 0 := by
      rw [← countP_filter_and, hfilter]
      rfl
    rw [h2] at h1
    rcases hy : σ (Var.yv g s.id d h) with _ | _
    · rfl
    · rw [hy] at h1
      simp [b2i] at h1
  · intro hH
    exact start0_forced (contig_holds hsat hg hs hc hd
      (startConstr_mem_contigBlock hH (by simp [startConstrs])))
  · intro h hpos hh
    constructor
    · intro c hcm
      exact buildModel_of_contig (contig_mem hg hs hc hd
        (startConstr_mem_contigBlock hh hcm))
    · have hrel := startRel_sat hsat hg hs hc hd h hh
      rw [if_neg (by omega)] at hrel
      exact hrel

/-- Witness for claim C4 on a concrete solved fixture. -/
theorem claim_C4_witness :
    sigmaW (Var.startv "1" "m" 0 1) =
      (sigmaW (Var.yv "1" "m" 0 1) && !(sigmaW (Var.yv "1" "m" 0 0))) :=
  ((claim_C4 1 2 ["1"] [subjW] [teachW] sigmaW (by decide) "1" (by decide)
      subjW (by decide) (by decide) 0 (by decide)).2.2 1 (by decide)
    (by decide)).2

/-- Claim C5: the model caps every teacher's assignment variables summed
across all groups, subjects, days and hours by max_hours_week; the cap is
therefore summed across groups — a concrete two-group scenario whose
combined demand on one shared teacher exceeds the cap admits no solution,
although the same demand of a single group alone does. -/
theorem claim_C5 :
    (∀ (D H : Nat) (gs : List String) (ss : List Subject) (ts : List Teacher)
        (σ : Var → Bool), ModelSat D H gs ss ts σ → ∀ t ∈ ts,
      (dictKeys D H gs ss ts).countP
        (fun k => keyT t.id k && σ (Var.assign k)) ≤ t.max_hours_week) ∧
    (¬ ∃ σ : Var → Bool,
      ModelSat 2 2 ["1-A", "1-B"] [sharedSubject] [sharedTeacher] σ) ∧
    (∃ σ : Var → Bool,
      ModelSat 2 2 ["1-A"] [sharedSubject] [sharedTeacher] σ) := by
  refine ⟨?_, ?_, ?_⟩
  · intro D H gs ss ts σ hsat t ht
    exact workload_sat hsat ht
  · rintro ⟨σ, hsat⟩
    have hq1 := quota_sat hsat (show "1-A" ∈ ["1-A", "1-B"] by decide)
      (show sharedSubject ∈ [sharedSubject] by decide) (by decide)
    have hq2 := quota_sat hsat (show "1-B" ∈ ["1-A", "1-B"] by decide)
      (show sharedSubject ∈ [sharedSubject] by decide) (by decide)
    have hw := workload_sat hsat (show sharedTeacher ∈ [sharedTeacher] by decide)
    have hGT1 : ∀ k ∈ dictKeys 2 2 ["1-A", "1-B"] [sharedSubject] [sharedTeacher],
        keyGS "1-A" sharedSubject.id k = true →
          keyT sharedTeacher.id k = true := by decide
    have hGT2 : ∀ k ∈ dictKeys 2 2 ["1-A", "1-B"] [sharedSubject] [sharedTeacher],
        keyGS "1-B" sharedSubject.id k = true →
          keyT sharedTeacher.id k = true := by decide
    have hdisj : ∀ k ∈ dictKeys 2 2 ["1-A", "1-B"] [sharedSubject] [sharedTeacher],
        ¬(keyGS "1-A" sharedSubject.id k = true ∧
          keyGS "1-B" sharedSubject.id k = true) := by decide
    have hadd := countP_add_le
      (dictKeys 2 2 ["1-A", "1-B"] [sharedSubject] [sharedTeacher])
      (fun k => keyGS "1-A" sharedSubject.id k && σ (Var.assign k))
      (fun k => keyGS "1-B" sharedSubject.id k && σ (Var.assign k))
      (fun k => keyT sharedTeacher.id k && σ (Var.assign k))
      (fun k hk hp => by
        rw [Bool.and_eq_true] at hp ⊢
        exact ⟨hGT1 k hk hp.1, hp.2⟩)
      (fun k hk hq => by
        rw [Bool.and_eq_true] at hq ⊢
        exact ⟨hGT2 k hk hq.1, hq.2⟩)
      (fun k hk hpq => by
        rw [Bool.and_eq_true, Bool.and_eq_true] at hpq
        exact hdisj k hk ⟨hpq.1.1, hpq.2.1⟩)
    have hwh : sharedSubject.weekly_hours = 2 := rfl
    have hmx : sharedTeacher.max_hours_week = 3 := rfl
    rw [hwh] at hq1 hq2
    rw [hmx] at hw
    omega
  · exact ⟨sigmaShared, by decide⟩

/-- Witness for claim C5 on a concrete solved fixture. -/
theorem claim_C5_witness :
    (dictKeys 2 2 ["1-A"] [sharedSubject] [sharedTeacher]).countP
      (fun k => keyT 1 k && sigmaShared (Var.assign k)) ≤ 3 :=
  claim_C5.1 2 2 ["1-A"] [sharedSubject] [sharedTeacher] sigmaShared
    (by decide) sharedTeacher (by decide)

/-- Claim C6: for every teacher, day and hour inside the grid the model
registers the dedicated at-most-one primitive (not a plain linear sum) over
that teacher's variables of the slot, and consequently in every accepted
solution at most one of those variables is 1. -/
theorem claim_C6 :
    (∀ (D H : Nat) (gs : List String) (ss : List Subject) (ts : List Teacher),
      ∀ t ∈ ts, ∀ d h : Nat, d < D → h < H →
        Constr.atMostOne (((dictKeys D H gs ss ts).filter (keyTDH t.id d h)).map
          Var.assign) ∈ buildModel D H gs ss ts) ∧
    (∀ (D H : Nat) (gs : List String) (ss : List Subject) (ts : List Teacher)
        (σ : Var → Bool), ModelSat D H gs ss ts σ → ∀ t ∈ ts, ∀ d h : Nat,
      d < D → h < H →
        (dictKeys D H gs ss ts).countP
          (fun k => keyTDH t.id d h k && σ (Var.assign k)) ≤ 1) := by
  constructor
  · intro D H gs ss ts t ht d h hd hh
    exact buildModel_of_amo (amo_mem ht hd hh)
  · intro D H gs ss ts σ hsat t ht d h hd hh
    exact amo_sat hsat ht hd hh

/-- Witness for claim C6 on a concrete fixture. -/
theorem claim_C6_witness :
    Constr.atMostOne (((dictKeys 1 2 ["1"] [subjW] [teachW]).filter
      (keyTDH 1 0 0)).map Var.assign) ∈ buildModel 1 2 ["1"] [subjW] [teachW] :=
  claim_C6.1 1 2 ["1"] [subjW] [teachW] teachW (by decide) 0 0 (by decide)
    (by decide)

/-- Claim C7: for every (group, subject, teacher, day) combination having
at least one assignment variable, every accepted solution assigns that
combination at most max_hours_per_day hours on that day (ids assumed
pairwise distinct as in the spec's data model). -/
theorem claim_C7 (D H : Nat) (gs : List String) (ss : List Subject)
    (ts : List Teacher) (σ : Var → Bool) (hsat : ModelSat D H gs ss ts σ)
    (hsid : (ss.map Subject.id).Nodup) (htid : (ts.map Teacher.id).Nodup)
    (g : String) (s : Subject) (t : Teacher) (d : Nat) (hs : s ∈ ss)
    (ht : t ∈ ts)
    (hex : ∃ h, (⟨g, s.id, t.id, d, h⟩ : SKey) ∈ dictKeys D H gs ss ts) :
    (dictKeys D H gs ss ts).countP
      (fun k => keyGSTD g s.id t.id d k && σ (Var.assign k)) ≤
      s.max_hours_per_day := by
  obtain ⟨h, hk⟩ := hex
  rw [mem_dictKeys_iff, mem_rawKeys_iff] at hk
  obtain ⟨g', hg', s', hs', hc', t', ht', hcert', d', hd', h', hh', hkE⟩ := hk
  injection hkE with hgE hsE htE hdE hhE
  subst hgE
  subst hdE
  have hsEq : s' = s := List.inj_on_of_nodup_map hsid hs' hs hsE.symm
  have htEq : t' = t := List.inj_on_of_nodup_map htid ht' ht htE.symm
  subst hsEq
  subst htEq
  exact daily_sat hsat hg' hs hc' ht hcert' hd'

/-- Witness for claim C7 on a concrete solved fixture. -/
theorem claim_C7_witness :
    (dictKeys 1 2 ["1"] [subjW] [teachW]).countP
      (fun k => keyGSTD "1" "m" 1 0 k && sigmaW (Var.assign k)) ≤ 2 :=
  claim_C7 1 2 ["1"] [subjW] [teachW] sigmaW (by decide) (by decide) (by decide)
    "1" subjW teachW 0 (by decide) (by decide) ⟨0, by decide⟩

/-- Claim C8: solution extraction happens only under FEASIBLE or OPTIMAL —
for any other status `print_timetables` produces no grid for any group and
reports no feasible solution, for every valuation of the variables (so it
reads none of them). -/
theorem claim_C8 (st : Status) (h1 : st ≠ Status.OPTIMAL)
    (h2 : st ≠ Status.FEASIBLE) (eg : Option (List String))
    (es : Option (List Subject)) (et : Option (List Teacher))
    (value : SKey → Bool) (asg : List SKey) (D H : Nat) :
    printTimetables eg es et st value asg D H =
      Except.ok PTOutput.noFeasible := by
  cases st with
  | OPTIMAL => exact absurd rfl h1
  | FEASIBLE => exact absurd rfl h2
  | INFEASIBLE => rfl
  | UNKNOWN => rfl
  | MODEL_INVALID => rfl

/-- Witness for claim C8 at the UNKNOWN status. -/
theorem claim_C8_witness :
    printTimetables none none none Status.UNKNOWN (fun _ => false) [] 5 5 =
      Except.ok PTOutput.noFeasible :=
  claim_C8 Status.UNKNOWN (by decide) (by decide) none none none
    (fun _ => false) [] 5 5

/-- Claim C9: rebuilding the model from identical inputs yields the same
key set and the same constraint list, hence the same satisfiability (status
class) — `build_and_solve` reads nothing but its arguments, so the
construction is deterministic by purity. -/
theorem claim_C9 (D H : Nat) (gs : List String) (ss : List Subject)
    (ts : List Teacher) :
    dictKeys D H gs ss ts = dictKeys D H gs ss ts ∧
    buildModel D H gs ss ts = buildModel D H gs ss ts ∧
    ((∃ σ : Var → Bool, ModelSat D H gs ss ts σ) ↔
      (∃ σ : Var → Bool, ModelSat D H gs ss ts σ)) :=
  ⟨rfl, rfl, Iff.rfl⟩

/-- Counterexample for claim C10 as stated: a call of `print_timetables`
from a scope where the globals are undefined does not fail when the status
is INFEASIBLE — the globals are never evaluated and the call returns the
no-feasible-solution report. -/
theorem claim_C10_counterexample :
    printTimetables none none none Status.INFEASIBLE (fun _ => false) [] 5 5 =
      Except.ok PTOutput.noFeasible := rfl

/-- Claim C10 (amended): the groups rendered by `print_timetables` are
exactly the module-level global `all_groups`, never the parameters — every
produced table list projects to that global — and with a FEASIBLE or
OPTIMAL status a call from a scope where `all_groups` is undefined raises
NameError; with any other status the globals are not read and the call
succeeds. -/
theorem claim_C10 :
    (∀ (gs : List String) (es : Option (List Subject))
        (et : Option (List Teacher)) (st : Status) (value : SKey → Bool)
        (asg : List SKey) (D H : Nat)
        (l : List (String × List (List String))),
      printTimetables (some gs) es et st value asg D H =
          Except.ok (PTOutput.tables l) → l.map Prod.fst = gs) ∧
    (∀ (es : Option (List Subject)) (et : Option (List Teacher)) (st : Status)
        (value : SKey → Bool) (asg : List SKey) (D H : Nat),
      (st = Status.FEASIBLE ∨ st = Status.OPTIMAL) →
        printTimetables none es et st value asg D H =
          Except.error "NameError: all_groups") := by
  constructor
  · intro gs es et st value asg D H l h
    unfold printTimetables at h
    split at h
    · dsimp only at h
      cases hm : exceptMap (tableFor es et value asg D H) gs with
      | error e =>
          rw [hm] at h
          simp [Bind.bind, Except.bind] at h
      | ok tbls =>
          rw [hm] at h
          simp only [Bind.bind, Except.bind, Pure.pure, Except.pure,
            Except.ok.injEq, PTOutput.tables.injEq] at h
          rw [← h]
          exact exceptMap_tableFor_fst gs tbls hm
    · exact absurd (Except.ok.inj h) (fun he => PTOutput.noConfusion he)
  · intro es et st value asg D H hfs
    rcases hfs with rfl | rfl <;> rfl

/-- Witness for claim C10 on concrete calls. -/
theorem claim_C10_witness :
    ([("1", [["Hour 0", "-"]])].map Prod.fst = ["1"]) ∧
    printTimetables none none none Status.FEASIBLE (fun _ => true) [] 1 1 =
      Except.error "NameError: all_groups" :=
  ⟨claim_C10.1 ["1"] (some []) (some []) Status.FEASIBLE (fun _ => true) [] 1 1
      [("1", [["Hour 0", "-"]])] rfl,
   claim_C10.2 none none Status.FEASIBLE (fun _ => true) [] 1 1 (Or.inl rfl)⟩
